import Mathlib

/-!
# Quicksave — formal model of the registry and snapshot listing

A shallow embedding of the Quicksave command-line tool:

* `src/config.py` — the registry (`Config`): a YAML document with a `version`
  string and a `games` mapping from primary name to a game entry holding
  `save_dir`, `backup_dir` and an `aliases` list.  Python `dict`s preserve
  insertion order and have unique keys, so the `games` mapping is modelled as
  an association list `List (String × GameEntry)` iterated in order; dict
  assignment replaces in place, dict deletion filters the key out.
* `src/backup_manager.py` — `BackupManager.list_snapshots` (filename parsing
  and newest-first sorting) and `BackupManager.verify_directories`.
* `src/main.py` — the `main` dispatcher, for the `--version` flag and the
  `register` command.

File I/O is modelled by an explicit `FileState` for the config file (missing /
parsed / corrupt) and by a list of existing directories; `os.path.abspath` is
an abstract parameter.
-/

set_option autoImplicit false

namespace Quicksave

/-- One value of the `games` mapping.  `aliases` is `none` when the `"aliases"`
key is absent from the per-game dict (`config.py` guards with
`"aliases" not in games[name]` / `.get("aliases", [])`). -/
structure GameEntry where
  save_dir : String
  backup_dir : String
  aliases : Option (List String)
  deriving DecidableEq, Repr

/-- The `games` mapping: a Python dict, i.e. an insertion-ordered association
list with (by dict semantics) unique keys. -/
abbrev Games := List (String × GameEntry)

/-- The registry document (`self.config`).  Either top-level key may be absent
(e.g. a file that parsed to the empty document `{}`). -/
structure ConfigDoc where
  version : Option String
  games : Option Games
  deriving DecidableEq, Repr

/-- The on-disk state of `quicksave.yaml`: absent, parsed to a document
(`ok d`; a file whose YAML is `null` loads as the empty document because of
`yaml.safe_load(file) or {}`), or raising `yaml.YAMLError` (`corrupt`, with the
raw bytes carried so "file unchanged" is expressible). -/
inductive FileState where
  | missing
  | ok (d : ConfigDoc)
  | corrupt (raw : String)
  deriving DecidableEq, Repr

/-- In-memory document plus the on-disk file: the state a `Config` object acts
on. -/
structure ConfigState where
  config : ConfigDoc
  file : FileState
  deriving DecidableEq, Repr

/-! ## Dict primitives -/

/-- `d[k]` lookup: first pair with the key (unique in a real dict). -/
def lookupAL : Games → String → Option GameEntry
  | [], _ => none
  | p :: tl, k => if p.1 = k then some p.2 else lookupAL tl k

/-- `k in d`. -/
def hasKey : Games → String → Bool
  | [], _ => false
  | p :: tl, k => p.1 == k || hasKey tl k

/-- The in-place update a dict assignment performs on an existing key. -/
def replacePair (k : String) (v : GameEntry) (p : String × GameEntry) :
    String × GameEntry :=
  if p.1 = k then (k, v) else p

/-- `d[k] = v`: replace in place when the key is present, append otherwise. -/
def dictInsert (l : Games) (k : String) (v : GameEntry) : Games :=
  if hasKey l k then l.map (replacePair k v)
  else l ++ [(k, v)]

/-- `del d[k]`. -/
def dictErase (l : Games) (k : String) : Games :=
  l.filter (fun p => p.1 != k)

/-- The keys of the mapping, in iteration order. -/
def keysOf (l : Games) : List String := l.map (·.1)

/-- `game_info.get("aliases", [])`. -/
def entryAliases (e : GameEntry) : List String := e.aliases.getD []

/-- The entry after `games[name]["aliases"].append(alias)` (with the
`"aliases"` key ensured first). -/
def appendAlias (e : GameEntry) (a : String) : GameEntry :=
  { e with aliases := some (entryAliases e ++ [a]) }

/-- `if "aliases" not in games[name]: games[name]["aliases"] = []`. -/
def ensureAliases (e : GameEntry) : GameEntry :=
  if e.aliases.isSome then e else { e with aliases := some [] }

/-! ## `Config` operations (`src/config.py`) -/

/-- The default document `{"version": "0.1.0", "games": {}}`. -/
def defaultDoc : ConfigDoc := { version := some "0.1.0", games := some [] }

/-- `Config._load_config`: if the file is missing, a default document is
created and saved; if it parses, the parse is returned; on `yaml.YAMLError`
defaults are returned and nothing is written. -/
def load_config : FileState → ConfigDoc × FileState
  | .missing => (defaultDoc, .ok defaultDoc)
  | .ok d => (d, .ok d)
  | .corrupt raw => (defaultDoc, .corrupt raw)

/-- `Config.save`: dump the in-memory document over the file. -/
def saveCS (s : ConfigState) : ConfigState :=
  { s with file := .ok s.config }

/-- `Config.get_games`: `self.config.get("games", {})`. -/
def get_games (c : ConfigDoc) : Games := c.games.getD []

/-- The alias scan all the name-or-alias operations share: iterate the mapping
in insertion order and return the first pair whose alias list contains `x`
(`for name, game_info in games.items(): ... if name_or_alias in aliases`). -/
def findAlias : Games → String → Option (String × GameEntry)
  | [], _ => none
  | p :: tl, x => if x ∈ entryAliases p.2 then some p else findAlias tl x

/-- `Config.get_game`: exact primary-name lookup first, then a linear scan of
every entry's aliases (`isinstance(aliases, list)` always holds in the typed
model); first match wins. -/
def get_game (c : ConfigDoc) (name_or_alias : String) : Option GameEntry :=
  let games := get_games c
  match lookupAL games name_or_alias with
  | some gi => some gi
  | none => (findAlias games name_or_alias).map (·.2)

/-- The primary key `get_game` resolves `name_or_alias` to, when any. -/
def resolveKey (c : ConfigDoc) (name_or_alias : String) : Option String :=
  let games := get_games c
  if hasKey games name_or_alias then some name_or_alias
  else (findAlias games name_or_alias).map (·.1)

/-- The entry `add_game` builds: aliases start `[]` and are overwritten only
by a truthy list (in Python an empty list is falsy, leaving `[]` either way). -/
def newGameEntry (sd bd : String) (aliases : Option (List String)) : GameEntry :=
  match aliases with
  | some l =>
    if l.isEmpty then { save_dir := sd, backup_dir := bd, aliases := some [] }
    else { save_dir := sd, backup_dir := bd, aliases := some l }
  | none => { save_dir := sd, backup_dir := bd, aliases := some [] }

/-- `Config.add_game`: ensure the `games` key, store a fresh entry under
`name` (inserting or overwriting), and persist. -/
def add_game (s : ConfigState) (name sd bd : String)
    (aliases : Option (List String)) : ConfigState :=
  saveCS { s with config := { s.config with
    games := some (dictInsert (get_games s.config) name (newGameEntry sd bd aliases)) } }

/-- Store entry `v` under the existing primary key `name`
(`self.config["games"][name] = v`). -/
def setGame (c : ConfigDoc) (name : String) (v : GameEntry) : ConfigDoc :=
  { c with games := some (dictInsert (get_games c) name v) }

/-- `Config.add_alias`: `False` when `name` is not a primary key.  Otherwise
the `"aliases"` key is ensured (an in-memory mutation, not persisted), and the
alias is appended and persisted only when not already present. -/
def add_alias (s : ConfigState) (name a : String) : ConfigState × Bool :=
  match lookupAL (get_games s.config) name with
  | none => (s, false)
  | some e =>
    let e1 := ensureAliases e
    if a ∈ entryAliases e1 then
      ({ s with config := setGame s.config name e1 }, true)
    else
      (saveCS { s with config := setGame s.config name (appendAlias e1 a) }, true)

/-- `Config.update_game`: ensure the `games` key (this happens even when
nothing matches), then direct name lookup, then alias scan; on a match the new
entry is stored under the matched primary name and persisted. -/
def update_game (s : ConfigState) (name_or_alias : String) (gi : GameEntry) :
    ConfigState × Bool :=
  let g0 := get_games s.config
  let c0 : ConfigDoc := { s.config with games := some g0 }
  if hasKey g0 name_or_alias then
    (saveCS { s with config := { c0 with games := some (dictInsert g0 name_or_alias gi) } },
     true)
  else
    match findAlias g0 name_or_alias with
    | some p =>
      (saveCS { s with config := { c0 with games := some (dictInsert g0 p.1 gi) } }, true)
    | none => ({ s with config := c0 }, false)

/-- `Config.remove_game`: direct name lookup, then alias scan; the matched
primary key is deleted and the document persisted.  (Unlike `update_game`, a
miss leaves the document untouched: `get_games` hands back a fresh `{}` when
the key is absent.) -/
def remove_game (s : ConfigState) (name_or_alias : String) : ConfigState × Bool :=
  let g0 := get_games s.config
  if hasKey g0 name_or_alias then
    (saveCS { s with config := { s.config with games := some (dictErase g0 name_or_alias) } },
     true)
  else
    match findAlias g0 name_or_alias with
    | some p =>
      (saveCS { s with config := { s.config with games := some (dictErase g0 p.1) } }, true)
    | none => (s, false)

/-! ## `BackupManager` (`src/backup_manager.py`) -/

/-- A parsed snapshot: `(filename, timestamp, tag)`. -/
abbrev Snapshot := String × String × Option String

/-- `BackupManager.is_s3_path`. -/
def is_s3_path (p : String) : Bool := p.startsWith "s3://"

/-- `BackupManager.parse_s3_path`: strip `s3://`, then
`split('/', 1)` into bucket and key (key `""` when there is no slash). -/
def parse_s3_path (p : String) : String × String :=
  let rest := p.drop 5
  match rest.splitOn "/" with
  | [] => (rest, "")
  | [b] => (b, "")
  | b :: tl => (b, String.intercalate "/" tl)

/-- The per-filename body of the `list_snapshots` loop: keep names of the form
`<source_name>_…​.zip`, strip the `<source_name>_` front and the `.zip` end,
split the remainder on `_`; with fewer than 2 components the name is dropped;
the timestamp is the first two components re-joined with `_` and the tag is
the rest re-joined with `_` (`None` when nothing remains). -/
def snapshotOfFile (source_name file : String) : Option Snapshot :=
  if file.startsWith (source_name ++ "_") && file.endsWith ".zip" then
    match ((file.drop (source_name ++ "_").length).dropRight 4).splitOn "_" with
    | p0 :: p1 :: rest =>
      some (file, p0 ++ "_" ++ p1,
        if rest.isEmpty then none else some (String.intercalate "_" rest))
    | _ => none
  else none

/-- `BackupManager.list_snapshots` on the listing of a local backup directory
(the S3 and missing-directory branches return `[]` before this scan runs):
parse each name in directory order, then
`sorted(snapshots, key=lambda x: x[1], reverse=True)` — a stable sort,
descending on the timestamp string, which `mergeSort` with
`fun a b => b.2.1 ≤ a.2.1` reproduces exactly (ties keep directory order). -/
def list_snapshots (files : List String) (source_name : String) : List Snapshot :=
  (files.filterMap (snapshotOfFile source_name)).mergeSort
    (fun a b => decide (b.2.1 ≤ a.2.1))

/-- The per-filename contract as the specification words it: keep only names
with the `<sourceBaseName>_` front and the archive extension; drop any name
whose stripped remainder splits on underscore into fewer than 2 components;
the timestamp is the first two components joined by underscore; the tag is the
remaining components rejoined with underscores, absent when exactly 2
components exist.  Stated separately from `snapshotOfFile` so the code can be
proved to refine it. -/
def snapshotOfFileSpec (source_name file : String) : Option Snapshot :=
  if file.startsWith (source_name ++ "_") && file.endsWith ".zip" then
    if (((file.drop (source_name ++ "_").length).dropRight 4).splitOn "_").length < 2
    then none
    else
      some (file,
        String.intercalate "_"
          ((((file.drop (source_name ++ "_").length).dropRight 4).splitOn "_").take 2),
        if (((file.drop (source_name ++ "_").length).dropRight 4).splitOn "_").length = 2
        then none
        else some (String.intercalate "_"
          ((((file.drop (source_name ++ "_").length).dropRight 4).splitOn "_").drop 2)))
  else none

/-- `BackupManager.verify_directories`, with directory existence read from the
list `dirs` and `os.makedirs` modelled as succeeding (the `OSError` branch is
an environment failure outside the model).  Returns
`(success, error_message, dirs after any creation)`. -/
def verify_directories (dirs : List String) (save_dir backup_dir : String) :
    Bool × Option String × List String :=
  if ¬ dirs.contains save_dir then
    (false, some ("Save directory '" ++ save_dir ++ "' does not exist."), dirs)
  else if is_s3_path backup_dir then
    let bk := parse_s3_path backup_dir
    if bk.1 = "" then
      (false, some "Invalid S3 URL format. Expected: s3://bucket-name/optional/path", dirs)
    else (true, none, dirs)
  else if ¬ dirs.contains backup_dir then (true, none, backup_dir :: dirs)
  else (true, none, dirs)

/-! ## `main` (`src/main.py`)

Only the parts the claims exercise are embedded: the `--version` flag and the
`register` command.  The other commands (`save`, `list`, `show`) never touch
the registry file and are outside the claims' scope. -/

/-- A parsed `register` invocation. -/
structure RegisterArgs where
  name : String
  save_dir : String
  backup_dir : String
  aliasArgs : Option (List String)
  deriving DecidableEq, Repr

/-- The parsed command line, as far as the embedded commands go. -/
structure Args where
  version : Bool
  command : Option RegisterArgs
  deriving DecidableEq, Repr

/-- The filesystem state `main` acts on: the config file and the set of
existing directories. -/
structure World where
  configFile : FileState
  dirs : List String
  deriving DecidableEq, Repr

/-- `main()`: construct `Config()` (which loads — and, for a missing file,
creates — the config file) before anything else; then the `--version` check;
then command dispatch.  `abspath` abstracts `os.path.abspath`; for an
S3-prefixed backup dir the raw string is kept.  Returns the final world and
the printed lines. -/
def mainRun (abspath : String → String) (args : Args) (w : World) :
    World × List String :=
  let loaded := load_config w.configFile
  let cfg := loaded.1
  let w1 : World := { w with configFile := loaded.2 }
  if args.version then (w1, ["quicksave version 0.1.0"])
  else
    match args.command with
    | none => (w1, [])
    | some r =>
      let save_dir := abspath r.save_dir
      let backup_dir :=
        if r.backup_dir.startsWith "s3://" then r.backup_dir else abspath r.backup_dir
      let v := verify_directories w1.dirs save_dir backup_dir
      if v.1 then
        let s1 := add_game { config := cfg, file := w1.configFile }
          r.name save_dir backup_dir r.aliasArgs
        ({ configFile := s1.file, dirs := v.2.2 },
         ["Registered game: " ++ r.name,
          "Save directory: " ++ save_dir,
          "Backup directory: " ++ backup_dir] ++
          (match r.aliasArgs with
           | some l => if l.isEmpty then [] else ["Aliases: " ++ String.intercalate ", " l]
           | none => []))
      else ({ w1 with dirs := v.2.2 }, [v.2.1.getD ""])

/-- The §3 invariant on a registry document: no entry's primary name appears
in that entry's own alias list. -/
def InvDoc (c : ConfigDoc) : Prop :=
  ∀ p ∈ get_games c, p.1 ∉ entryAliases p.2

instance (c : ConfigDoc) : Decidable (InvDoc c) := by
  unfold InvDoc; infer_instance

/-! ## Lemmas about the dict primitives -/

theorem hasKey_iff_mem {l : Games} {k : String} : hasKey l k = true ↔ k ∈ keysOf l := by
  induction l with
  | nil => simp [hasKey, keysOf]
  | cons p tl ih =>
    by_cases hp : p.1 = k
    · simp [hasKey, keysOf, hp]
    · simp only [hasKey, keysOf, List.map_cons, List.mem_cons, Bool.or_eq_true,
        beq_iff_eq, hp, false_or]
      rw [ih]
      constructor
      · exact fun h => Or.inr (by simpa [keysOf] using h)
      · rintro (he | h1)
        · exact absurd he.symm hp
        · simpa [keysOf] using h1

theorem lookupAL_eq_none_iff {l : Games} {k : String} :
    lookupAL l k = none ↔ k ∉ keysOf l := by
  induction l with
  | nil => simp [lookupAL, keysOf]
  | cons p tl ih =>
    by_cases hp : p.1 = k
    · simp [lookupAL, keysOf, hp]
    · rw [lookupAL, if_neg hp, ih]
      simp only [keysOf, List.map_cons, List.mem_cons, keysOf] at *
      constructor
      · rintro h (h1 | h1)
        · exact hp h1.symm
        · exact h h1
      · intro h h1
        exact h (Or.inr h1)

theorem lookupAL_isSome_iff {l : Games} {k : String} :
    (lookupAL l k).isSome = true ↔ k ∈ keysOf l := by
  rcases h : lookupAL l k with _ | v
  · simpa using lookupAL_eq_none_iff.mp h
  · simp only [Option.isSome_some, true_iff]
    by_contra hk
    rw [lookupAL_eq_none_iff.mpr hk] at h
    exact Option.noConfusion h

theorem lookupAL_mem {l : Games} {k : String} {v : GameEntry}
    (h : lookupAL l k = some v) : (k, v) ∈ l := by
  induction l with
  | nil => simp [lookupAL] at h
  | cons p tl ih =>
    obtain ⟨p1, p2⟩ := p
    by_cases hp : p1 = k
    · simp [lookupAL, hp] at h
      rw [← hp, ← h]
      exact List.mem_cons_self _ _
    · simp only [lookupAL, if_neg hp] at h
      exact List.mem_cons_of_mem _ (ih h)

theorem dictInsert_eq_map {l : Games} {k : String} {v : GameEntry}
    (h : k ∈ keysOf l) : dictInsert l k v = l.map (replacePair k v) := by
  rw [dictInsert, if_pos (hasKey_iff_mem.mpr h)]

theorem dictInsert_eq_append {l : Games} {k : String} {v : GameEntry}
    (h : k ∉ keysOf l) : dictInsert l k v = l ++ [(k, v)] := by
  rw [dictInsert, if_neg (fun hh => h (hasKey_iff_mem.mp hh))]

theorem keysOf_map_replacePair {l : Games} {k : String} {v : GameEntry}
    (h : k ∈ keysOf l) : keysOf (l.map (replacePair k v)) = keysOf l := by
  induction l with
  | nil => rfl
  | cons p tl ih =>
    by_cases hp : p.1 = k
    · simp only [keysOf, List.map_cons] at ih ⊢
      by_cases htl : k ∈ keysOf tl
      · simpa [replacePair, hp] using ih (by simpa [keysOf] using htl)
      · have : tl.map (replacePair k v) = tl := by
          have hc : tl.map (replacePair k v) = tl.map id := by
            apply List.map_congr_left
            intro q hq
            have : q.1 ≠ k := fun he => htl (List.mem_map.mpr ⟨q, hq, he⟩)
            simp [replacePair, this]
          simpa using hc
        simp [replacePair, hp, this]
    · have htl : k ∈ keysOf tl := by
        rcases (by simpa [keysOf] using h) with h1 | h1
        · exact absurd h1.symm hp
        · simpa [keysOf] using h1
      simp only [keysOf, List.map_cons] at ih ⊢
      simpa [replacePair, hp] using ih (by simpa [keysOf] using htl)

theorem keysOf_dictInsert_mem {l : Games} {k : String} {v : GameEntry}
    (h : k ∈ keysOf l) : keysOf (dictInsert l k v) = keysOf l := by
  rw [dictInsert_eq_map h, keysOf_map_replacePair h]

theorem lookupAL_map_replacePair_self {l : Games} {k : String} {v : GameEntry}
    (h : k ∈ keysOf l) : lookupAL (l.map (replacePair k v)) k = some v := by
  induction l with
  | nil => simp [keysOf] at h
  | cons p tl ih =>
    by_cases hp : p.1 = k
    · simp [lookupAL, replacePair, hp]
    · have htl : k ∈ keysOf tl := by
        rcases (by simpa [keysOf] using h) with h1 | h1
        · exact absurd h1.symm hp
        · simpa [keysOf] using h1
      simpa [lookupAL, replacePair, hp] using ih htl

theorem lookupAL_append_single_self {l : Games} {k : String} {v : GameEntry}
    (h : k ∉ keysOf l) : lookupAL (l ++ [(k, v)]) k = some v := by
  induction l with
  | nil => simp [lookupAL]
  | cons p tl ih =>
    have hp : p.1 ≠ k := fun he => h (by simp [keysOf, he])
    have htl : k ∉ keysOf tl := fun hm => h (by simp [keysOf] at hm ⊢; right; exact hm)
    simpa [lookupAL, hp] using ih htl

theorem lookupAL_dictInsert_self {l : Games} {k : String} {v : GameEntry} :
    lookupAL (dictInsert l k v) k = some v := by
  by_cases h : k ∈ keysOf l
  · rw [dictInsert_eq_map h]; exact lookupAL_map_replacePair_self h
  · rw [dictInsert_eq_append h]; exact lookupAL_append_single_self h

theorem lookupAL_map_replacePair_ne {l : Games} {k k' : String} {v : GameEntry}
    (h : k' ≠ k) : lookupAL (l.map (replacePair k v)) k' = lookupAL l k' := by
  induction l with
  | nil => rfl
  | cons p tl ih =>
    by_cases hp : p.1 = k
    · have h1 : replacePair k v p = (k, v) := by simp [replacePair, hp]
      have h2 : p.1 ≠ k' := fun he => h (he ▸ hp.symm ▸ rfl)
      simp only [List.map_cons, h1]
      rw [lookupAL, lookupAL, if_neg (fun he => h he.symm), if_neg h2, ih]
    · have h1 : replacePair k v p = p := by simp [replacePair, hp]
      simp only [List.map_cons, h1]
      by_cases h2 : p.1 = k'
      · rw [lookupAL, lookupAL, if_pos h2, if_pos h2]
      · rw [lookupAL, lookupAL, if_neg h2, if_neg h2, ih]

theorem lookupAL_append_single_ne {l : Games} {k k' : String} {v : GameEntry}
    (h : k' ≠ k) : lookupAL (l ++ [(k, v)]) k' = lookupAL l k' := by
  induction l with
  | nil =>
    simp only [List.nil_append, lookupAL]
    rw [if_neg (fun he => h he.symm)]
  | cons p tl ih =>
    by_cases h2 : p.1 = k'
    · simp [lookupAL, h2]
    · simpa [lookupAL, h2] using ih

theorem lookupAL_dictInsert_ne {l : Games} {k k' : String} {v : GameEntry}
    (h : k' ≠ k) : lookupAL (dictInsert l k v) k' = lookupAL l k' := by
  by_cases hm : k ∈ keysOf l
  · rw [dictInsert_eq_map hm]; exact lookupAL_map_replacePair_ne h
  · rw [dictInsert_eq_append hm]; exact lookupAL_append_single_ne h

theorem mem_dictInsert_elim {l : Games} {k : String} {v : GameEntry}
    {p : String × GameEntry} (h : p ∈ dictInsert l k v) : p = (k, v) ∨ p ∈ l := by
  by_cases hm : k ∈ keysOf l
  · rw [dictInsert_eq_map hm] at h
    obtain ⟨q, hq, hfq⟩ := List.mem_map.mp h
    by_cases hqk : q.1 = k
    · left; rw [← hfq]; simp [replacePair, hqk]
    · right; rw [← hfq]; simpa [replacePair, hqk] using hq
  · rw [dictInsert_eq_append hm] at h
    rcases List.mem_append.mp h with h1 | h1
    · right; exact h1
    · left; simpa using h1

theorem map_replacePair_eq_self {l : Games} {k : String} {v : GameEntry}
    (hnone : ∀ q ∈ l, q.1 = k → q.2 = v) : l.map (replacePair k v) = l := by
  have hc : l.map (replacePair k v) = l.map id := by
    apply List.map_congr_left
    intro q hq
    by_cases hqk : q.1 = k
    · have := hnone q hq hqk
      obtain ⟨q1, q2⟩ := q
      simp_all [replacePair]
    · simp [replacePair, hqk]
  simpa using hc

theorem dictInsert_eq_self {l : Games} {k : String} {v : GameEntry}
    (hnd : (keysOf l).Nodup) (h : lookupAL l k = some v) : dictInsert l k v = l := by
  have hk : k ∈ keysOf l := List.mem_map.mpr ⟨(k, v), lookupAL_mem h, rfl⟩
  rw [dictInsert_eq_map hk]
  apply map_replacePair_eq_self
  intro q hq hqk
  -- with nodup keys the unique pair keyed `k` is the one `lookupAL` found
  induction l with
  | nil => simp at hq
  | cons p tl ih =>
    simp only [keysOf, List.map_cons, List.nodup_cons] at hnd
    rcases List.mem_cons.mp hq with h1 | h1
    · have hp : p.1 = k := h1 ▸ hqk
      simp [lookupAL, hp] at h
      rw [h1, h]
    · have hp : p.1 ≠ k := by
        intro he
        exact hnd.1 (he ▸ hqk ▸ List.mem_map.mpr ⟨q, h1, rfl⟩)
      simp [lookupAL, hp] at h
      exact ih (by simpa [keysOf] using hnd.2) h
        (List.mem_map.mpr ⟨(k, v), lookupAL_mem h, rfl⟩) h1

theorem nodup_keys_dictInsert {l : Games} {k : String} {v : GameEntry}
    (hnd : (keysOf l).Nodup) (hk : k ∈ keysOf l) :
    (keysOf (dictInsert l k v)).Nodup := by
  rw [keysOf_dictInsert_mem hk]; exact hnd

theorem mem_dictErase_iff {l : Games} {k : String} {p : String × GameEntry} :
    p ∈ dictErase l k ↔ p ∈ l ∧ p.1 ≠ k := by
  simp [dictErase, List.mem_filter]

theorem lookupAL_dictErase_self {l : Games} {k : String} :
    lookupAL (dictErase l k) k = none := by
  apply lookupAL_eq_none_iff.mpr
  intro hk
  obtain ⟨p, hp, hp1⟩ := List.mem_map.mp hk
  exact (mem_dictErase_iff.mp hp).2 hp1

/-! ## Lemmas about the alias scan and `get_game` -/

theorem findAlias_eq_none_iff {l : Games} {x : String} :
    findAlias l x = none ↔ ∀ p ∈ l, x ∉ entryAliases p.2 := by
  induction l with
  | nil => simp [findAlias]
  | cons p tl ih =>
    by_cases hp : x ∈ entryAliases p.2
    · simp [findAlias, hp]
    · simp [findAlias, hp, ih]

theorem findAlias_some_elim {l : Games} {x : String} {p : String × GameEntry}
    (h : findAlias l x = some p) : p ∈ l ∧ x ∈ entryAliases p.2 := by
  induction l with
  | nil => simp [findAlias] at h
  | cons q tl ih =>
    by_cases hq : x ∈ entryAliases q.2
    · simp only [findAlias, if_pos hq, Option.some_inj] at h
      exact ⟨h ▸ List.mem_cons_self _ _, h ▸ hq⟩
    · simp only [findAlias, if_neg hq] at h
      obtain ⟨h1, h2⟩ := ih h
      exact ⟨List.mem_cons_of_mem _ h1, h2⟩

theorem lookupAL_of_mem_nodup {l : Games} {k : String} {v : GameEntry}
    (hnd : (keysOf l).Nodup) (h : (k, v) ∈ l) : lookupAL l k = some v := by
  induction l with
  | nil => simp at h
  | cons p tl ih =>
    simp only [keysOf, List.map_cons, List.nodup_cons] at hnd
    rcases List.mem_cons.mp h with h1 | h1
    · rw [← h1]
      simp [lookupAL]
    · have hp : p.1 ≠ k := by
        intro he
        exact hnd.1 (he ▸ List.mem_map.mpr ⟨(k, v), h1, rfl⟩)
      rw [lookupAL, if_neg hp]
      exact ih (by simpa [keysOf] using hnd.2) h1

theorem get_game_eq_none {c : ConfigDoc} {x : String}
    (hk : x ∉ keysOf (get_games c))
    (hal : ∀ p ∈ get_games c, x ∉ entryAliases p.2) : get_game c x = none := by
  rw [get_game, lookupAL_eq_none_iff.mpr hk, findAlias_eq_none_iff.mpr hal]
  rfl

/-- `get_game` agrees with `resolveKey`: the entry returned is the one stored
under the resolved primary key (unique keys make the correspondence exact). -/
theorem get_game_eq_resolveKey_bind {c : ConfigDoc} {x : String}
    (hnd : (keysOf (get_games c)).Nodup) :
    get_game c x = (resolveKey c x).bind (lookupAL (get_games c)) := by
  rw [get_game, resolveKey]
  by_cases hk : hasKey (get_games c) x = true
  · rw [if_pos hk]
    rcases h : lookupAL (get_games c) x with _ | v
    · exact absurd (lookupAL_eq_none_iff.mp h) (fun hh => hh (hasKey_iff_mem.mp hk))
    · simp [h]
  · rw [if_neg hk]
    have hnone : lookupAL (get_games c) x = none :=
      lookupAL_eq_none_iff.mpr (fun hm => hk (hasKey_iff_mem.mpr hm))
    rw [hnone]
    rcases h : findAlias (get_games c) x with _ | p
    · simp
    · obtain ⟨hmem, _⟩ := findAlias_some_elim h
      have : lookupAL (get_games c) p.1 = some p.2 := by
        obtain ⟨p1, p2⟩ := p
        exact lookupAL_of_mem_nodup hnd hmem
      simp [this]

/-- The games mapping of `setGame` is a dict assignment on the old mapping. -/
theorem get_games_setGame {c : ConfigDoc} {n : String} {v : GameEntry} :
    get_games (setGame c n v) = dictInsert (get_games c) n v := rfl

theorem entryAliases_ensureAliases (e : GameEntry) :
    entryAliases (ensureAliases e) = entryAliases e := by
  cases he : e.aliases <;> simp [ensureAliases, entryAliases, he]

theorem ensureAliases_of_isSome {e : GameEntry} (h : e.aliases.isSome) :
    ensureAliases e = e := by rw [ensureAliases, if_pos h]

theorem entryAliases_appendAlias (e : GameEntry) (a : String) :
    entryAliases (appendAlias e a) = entryAliases e ++ [a] := by
  simp [appendAlias, entryAliases]

theorem appendAlias_ensureAliases (e : GameEntry) (a : String) :
    appendAlias (ensureAliases e) a = appendAlias e a := by
  cases he : e.aliases <;> simp [ensureAliases, appendAlias, entryAliases, he]

/-- On success `add_alias` rewrites the entry under `name` (and only it) to
one whose alias list contains `a`. -/
theorem add_alias_true_config {s : ConfigState} {name a : String}
    (h : (add_alias s name a).2 = true) :
    ∃ v, a ∈ entryAliases v ∧
      (add_alias s name a).1.config = setGame s.config name v ∧
      name ∈ keysOf (get_games s.config) := by
  rcases hl : lookupAL (get_games s.config) name with _ | e
  · simp only [add_alias, hl] at h
    exact absurd h (by simp)
  · have hmem : name ∈ keysOf (get_games s.config) :=
      List.mem_map.mpr ⟨(name, e), lookupAL_mem hl, rfl⟩
    by_cases ha : a ∈ entryAliases (ensureAliases e)
    · refine ⟨ensureAliases e, ha, ?_, hmem⟩
      simp only [add_alias, hl, if_pos ha]
    · refine ⟨appendAlias (ensureAliases e) a, ?_, ?_, hmem⟩
      · simp [entryAliases_appendAlias]
      · simp only [add_alias, hl, if_neg ha]
        rfl

theorem findAlias_map_replacePair {g : Games} {name a : String} {v : GameEntry}
    (hv : a ∈ entryAliases v)
    (hothers : ∀ p ∈ g, p.1 ≠ name → a ∉ entryAliases p.2)
    (hmem : name ∈ keysOf g) :
    findAlias (g.map (replacePair name v)) a = some (name, v) := by
  induction g with
  | nil => simp [keysOf] at hmem
  | cons p tl ih =>
    by_cases hp : p.1 = name
    · have h1 : replacePair name v p = (name, v) := by simp [replacePair, hp]
      simp [findAlias, h1, hv]
    · have h1 : replacePair name v p = p := by simp [replacePair, hp]
      have h2 : a ∉ entryAliases p.2 := hothers p (List.mem_cons_self _ _) hp
      have hmem' : name ∈ keysOf tl := by
        rcases (by simpa [keysOf] using hmem : name = p.1 ∨ name ∈ keysOf tl) with he | hm
        · exact absurd he.symm hp
        · exact hm
      simp only [List.map_cons, h1, findAlias, if_neg h2]
      exact ih (fun q hq => hothers q (List.mem_cons_of_mem _ hq)) hmem'

theorem get_game_setGame_self {c : ConfigDoc} {name : String} {v : GameEntry} :
    get_game (setGame c name v) name = some v := by
  simp only [get_game, get_games_setGame, lookupAL_dictInsert_self]

/-- Resolving a freshly added alias: when `a` collides with no other primary
name and no other entry's alias list, the scan lands on the rewritten entry. -/
theorem get_game_setGame_fresh_alias {c : ConfigDoc} {name a : String}
    {v : GameEntry}
    (hmem : name ∈ keysOf (get_games c))
    (hv : a ∈ entryAliases v)
    (hothers : ∀ p ∈ get_games c, p.1 ≠ name → a ∉ entryAliases p.2)
    (ha : a = name ∨ a ∉ keysOf (get_games c)) :
    get_game (setGame c name v) a = some v := by
  rcases ha with rfl | ha
  · exact get_game_setGame_self
  · have h1 : lookupAL ((get_games c).map (replacePair name v)) a = none := by
      apply lookupAL_eq_none_iff.mpr
      rw [keysOf_map_replacePair hmem]
      exact ha
    simp only [get_game, get_games_setGame, dictInsert_eq_map hmem, h1,
      findAlias_map_replacePair hv hothers hmem, Option.map_some']

/-- A nonempty games mapping really is stored under the `games` key. -/
theorem games_eq_some_of_ne_nil {c : ConfigDoc} (h : get_games c ≠ []) :
    c.games = some (get_games c) := by
  cases hg : c.games with
  | none => exact absurd (by rw [get_games, hg]; rfl) h
  | some g => rw [get_games, hg]; rfl

/-- Re-storing the entry `lookupAL` already finds is a no-op (unique keys). -/
theorem setGame_eq_self {c : ConfigDoc} {name : String} {e : GameEntry}
    (hnd : (keysOf (get_games c)).Nodup)
    (hl : lookupAL (get_games c) name = some e) : setGame c name e = c := by
  have hne : get_games c ≠ [] := by
    intro h
    rw [h] at hl
    exact Option.noConfusion hl
  rw [setGame, dictInsert_eq_self hnd hl, ← games_eq_some_of_ne_nil hne]

/-- `add_alias` on an already-present alias: `True` and the state — document
and file alike — is untouched. -/
theorem add_alias_already_present {s : ConfigState} {name a : String}
    {e : GameEntry}
    (hnd : (keysOf (get_games s.config)).Nodup)
    (hl : lookupAL (get_games s.config) name = some e)
    (ha : a ∈ entryAliases e) : add_alias s name a = (s, true) := by
  have hsome : e.aliases.isSome := by
    cases hh : e.aliases with
    | none => rw [entryAliases, hh] at ha; simp at ha
    | some l => rfl
  have hens : ensureAliases e = e := ensureAliases_of_isSome hsome
  simp only [add_alias, hl, hens]
  rw [if_pos ha, setGame_eq_self hnd hl]

/-- `add_alias` on a fresh alias appends it to the matched entry and saves. -/
theorem add_alias_not_present {s : ConfigState} {name a : String} {e : GameEntry}
    (hl : lookupAL (get_games s.config) name = some e)
    (ha : a ∉ entryAliases e) :
    add_alias s name a =
      (saveCS { s with config := setGame s.config name (appendAlias e a) }, true) := by
  have ha' : a ∉ entryAliases (ensureAliases e) := by
    rwa [entryAliases_ensureAliases]
  simp only [add_alias, hl, if_neg ha', appendAlias_ensureAliases]

/-! ## The claims -/

/-- C1 counterexample: in a registry with primary names `A` and `B`,
`addAlias("A", "B")` succeeds, yet `resolve("B")` still hits the primary name
`B` first and returns `B`'s entry, not `A`'s. -/
theorem addAlias_resolve_roundtrip_cex :
    ((add_alias
        ⟨⟨some "0.1.0", some [("A", ⟨"/sA", "/bA", some []⟩),
                              ("B", ⟨"/sB", "/bB", some []⟩)]⟩, .missing⟩
        "A" "B").2 = true) ∧
    get_game (add_alias
        ⟨⟨some "0.1.0", some [("A", ⟨"/sA", "/bA", some []⟩),
                              ("B", ⟨"/sB", "/bB", some []⟩)]⟩, .missing⟩
        "A" "B").1.config "B" ≠
      get_game (add_alias
        ⟨⟨some "0.1.0", some [("A", ⟨"/sA", "/bA", some []⟩),
                              ("B", ⟨"/sB", "/bB", some []⟩)]⟩, .missing⟩
        "A" "B").1.config "A" := by
  decide

/-- C1 (amended): after `add_alias name a` succeeds, provided the alias
collides with nothing else — it is not a primary name of a different entry and
not listed among any other entry's aliases — `resolve(alias)` returns the same
entry as `resolve(name)`; and on any registry, `resolve` of a string that is
neither a primary name nor a listed alias of any entry is not-found. -/
theorem addAlias_resolve_roundtrip (s : ConfigState) (name a : String)
    (hsucc : (add_alias s name a).2 = true)
    (hfresh : a = name ∨ a ∉ keysOf (get_games s.config))
    (hothers : ∀ p ∈ get_games s.config, p.1 ≠ name → a ∉ entryAliases p.2) :
    (get_game (add_alias s name a).1.config a
      = get_game (add_alias s name a).1.config name) ∧
    (∀ (c : ConfigDoc) (x : String), x ∉ keysOf (get_games c) →
      (∀ p ∈ get_games c, x ∉ entryAliases p.2) → get_game c x = none) := by
  constructor
  · obtain ⟨v, hv, hcfg, hmem⟩ := add_alias_true_config hsucc
    rw [hcfg, get_game_setGame_self,
      get_game_setGame_fresh_alias hmem hv hothers hfresh]
  · intro c x hk hal
    exact get_game_eq_none hk hal

/-- C1 witness: the amended round-trip applied to a concrete two-game
registry and a fresh alias. -/
theorem addAlias_resolve_roundtrip_witness :
    ((add_alias
        ⟨⟨some "0.1.0", some [("A", ⟨"/sA", "/bA", some []⟩),
                              ("B", ⟨"/sB", "/bB", some []⟩)]⟩, .missing⟩
        "A" "zelda").2 = true) ∧
    get_game (add_alias
        ⟨⟨some "0.1.0", some [("A", ⟨"/sA", "/bA", some []⟩),
                              ("B", ⟨"/sB", "/bB", some []⟩)]⟩, .missing⟩
        "A" "zelda").1.config "zelda" =
      get_game (add_alias
        ⟨⟨some "0.1.0", some [("A", ⟨"/sA", "/bA", some []⟩),
                              ("B", ⟨"/sB", "/bB", some []⟩)]⟩, .missing⟩
        "A" "zelda").1.config "A" :=
  ⟨by decide,
    (addAlias_resolve_roundtrip
      ⟨⟨some "0.1.0", some [("A", ⟨"/sA", "/bA", some []⟩),
                            ("B", ⟨"/sB", "/bB", some []⟩)]⟩, .missing⟩
      "A" "zelda" (by decide) (by decide) (by decide)).1⟩

/-- C3: `add_alias` returns `false` iff `name` is not a primary key of the
registry (an alias can never be targeted); when the alias is already present
for that entry it returns `true` leaving the whole state — alias list and file
alike — untouched; and calling it twice with the same arguments leaves the
state identical to calling it once (no duplicates). -/
theorem add_alias_fail_iff_idem (s : ConfigState) (name a : String)
    (hnd : (keysOf (get_games s.config)).Nodup) :
    ((add_alias s name a).2 = false ↔ name ∉ keysOf (get_games s.config)) ∧
    (∀ e, lookupAL (get_games s.config) name = some e → a ∈ entryAliases e →
      add_alias s name a = (s, true)) ∧
    (add_alias (add_alias s name a).1 name a).1 = (add_alias s name a).1 := by
  refine ⟨?_, fun e hl ha => add_alias_already_present hnd hl ha, ?_⟩
  · rcases hl : lookupAL (get_games s.config) name with _ | e
    · have h0 : add_alias s name a = (s, false) := by simp only [add_alias, hl]
      simp [h0, lookupAL_eq_none_iff.mp hl]
    · have hmem : name ∈ keysOf (get_games s.config) :=
        List.mem_map.mpr ⟨(name, e), lookupAL_mem hl, rfl⟩
      have h2 : (add_alias s name a).2 = true := by
        by_cases ha : a ∈ entryAliases e
        · rw [add_alias_already_present hnd hl ha]
        · rw [add_alias_not_present hl ha]
      simp [h2, hmem]
  · rcases hl : lookupAL (get_games s.config) name with _ | e
    · have h0 : add_alias s name a = (s, false) := by simp only [add_alias, hl]
      rw [h0]
      show (add_alias s name a).1 = s
      rw [h0]
    · by_cases ha : a ∈ entryAliases e
      · rw [add_alias_already_present hnd hl ha]
        show (add_alias s name a).1 = s
        rw [add_alias_already_present hnd hl ha]
      · have hmem : name ∈ keysOf (get_games s.config) :=
          List.mem_map.mpr ⟨(name, e), lookupAL_mem hl, rfl⟩
        rw [add_alias_not_present hl ha]
        show (add_alias
          (saveCS { s with config := setGame s.config name (appendAlias e a) })
          name a).1 = _
        have hg1 : get_games (saveCS { s with
              config := setGame s.config name (appendAlias e a) }).config
            = dictInsert (get_games s.config) name (appendAlias e a) := rfl
        have hnd1 : (keysOf (get_games (saveCS { s with
            config := setGame s.config name (appendAlias e a) }).config)).Nodup := by
          rw [hg1]
          exact nodup_keys_dictInsert hnd hmem
        have hl1 : lookupAL (get_games (saveCS { s with
              config := setGame s.config name (appendAlias e a) }).config) name
            = some (appendAlias e a) := by
          rw [hg1]
          exact lookupAL_dictInsert_self
        have ha1 : a ∈ entryAliases (appendAlias e a) := by
          simp [appendAlias, entryAliases]
        rw [add_alias_already_present hnd1 hl1 ha1]

/-- C3 witness: the failure condition, the no-op and idempotence at a
concrete one-game registry. -/
theorem add_alias_fail_iff_idem_witness :
    (keysOf (get_games
      (⟨⟨some "0.1.0", some [("A", ⟨"/s", "/b", some ["x"]⟩)]⟩, .missing⟩
        : ConfigState).config)).Nodup ∧
    (((add_alias
        (⟨⟨some "0.1.0", some [("A", ⟨"/s", "/b", some ["x"]⟩)]⟩, .missing⟩
          : ConfigState) "A" "y").2 = false ↔
      "A" ∉ keysOf (get_games
        (⟨⟨some "0.1.0", some [("A", ⟨"/s", "/b", some ["x"]⟩)]⟩, .missing⟩
          : ConfigState).config)) ∧
     (∀ e, lookupAL (get_games
        (⟨⟨some "0.1.0", some [("A", ⟨"/s", "/b", some ["x"]⟩)]⟩, .missing⟩
          : ConfigState).config) "A" = some e → "y" ∈ entryAliases e →
        add_alias
          (⟨⟨some "0.1.0", some [("A", ⟨"/s", "/b", some ["x"]⟩)]⟩, .missing⟩
            : ConfigState) "A" "y" =
          (⟨⟨some "0.1.0", some [("A", ⟨"/s", "/b", some ["x"]⟩)]⟩, .missing⟩, true)) ∧
     (add_alias (add_alias
        (⟨⟨some "0.1.0", some [("A", ⟨"/s", "/b", some ["x"]⟩)]⟩, .missing⟩
          : ConfigState) "A" "y").1 "A" "y").1 =
       (add_alias
        (⟨⟨some "0.1.0", some [("A", ⟨"/s", "/b", some ["x"]⟩)]⟩, .missing⟩
          : ConfigState) "A" "y").1) :=
  ⟨by decide, add_alias_fail_iff_idem _ "A" "y" (by decide)⟩

/-- C4 counterexample: starting from the default registry, `add_game "A"`
followed by `add_alias "A" "A"` — both plain registry operations — produces a
state whose entry `A` lists `A` in its own aliases: the invariant is not
maintained by the code. -/
theorem name_not_in_own_aliases_cex :
    ¬ InvDoc (add_alias
      (add_game ⟨defaultDoc, .ok defaultDoc⟩ "A" "/s" "/b" none)
      "A" "A").1.config := by
  decide

/-- C4 (amended): the invariant "a primary name never appears in its own
entry's aliases" is preserved by every registry operation provided the
caller's inputs respect it: `add_game` with an alias list not containing the
new name, `add_alias` with an alias different from the targeted name,
`update_game` with an entry whose aliases avoid the resolved primary name, and
`remove_game` unconditionally.  (The code itself never checks this, so e.g.
`add_alias(n, n)` violates the invariant — see the counterexample.) -/
theorem name_not_in_own_aliases_preserved (s : ConfigState)
    (hInv : InvDoc s.config) :
    (∀ n sd bd als, n ∉ als.getD [] → InvDoc (add_game s n sd bd als).config) ∧
    (∀ n a, a ≠ n → InvDoc (add_alias s n a).1.config) ∧
    (∀ k gi, (∀ n, resolveKey s.config k = some n → n ∉ entryAliases gi) →
      InvDoc (update_game s k gi).1.config) ∧
    (∀ k, InvDoc (remove_game s k).1.config) := by
  refine ⟨?_, ?_, ?_, ?_⟩
  · intro n sd bd als hn
    intro p hp
    have hp' : p ∈ dictInsert (get_games s.config) n (newGameEntry sd bd als) := hp
    rcases mem_dictInsert_elim hp' with h1 | h1
    · rw [h1]
      have : entryAliases (newGameEntry sd bd als) = [] ∨
          entryAliases (newGameEntry sd bd als) = als.getD [] := by
        rcases als with _ | l
        · left; rfl
        · rcases hl : l.isEmpty with _ | _
          · right; simp [newGameEntry, entryAliases, hl]
          · left
            simp only [newGameEntry, entryAliases, hl, if_true]
            simp [List.isEmpty_iff.mp hl]
      rcases this with h2 | h2 <;> rw [h2]
      · exact List.not_mem_nil n
      · exact hn
    · exact hInv p h1
  · intro n a hne
    rcases hl : lookupAL (get_games s.config) n with _ | e
    · have h0 : add_alias s n a = (s, false) := by simp only [add_alias, hl]
      rw [h0]
      exact hInv
    · have hInvE : n ∉ entryAliases e :=
        hInv (n, e) (lookupAL_mem hl)
      by_cases ha : a ∈ entryAliases (ensureAliases e)
      · have hcfg : (add_alias s n a).1.config = setGame s.config n (ensureAliases e) := by
          simp only [add_alias, hl, if_pos ha]
        rw [hcfg]
        intro p hp
        rcases mem_dictInsert_elim hp with h1 | h1
        · rw [h1]
          rw [entryAliases_ensureAliases]
          exact hInvE
        · exact hInv p h1
      · have hcfg : (add_alias s n a).1.config
            = setGame s.config n (appendAlias (ensureAliases e) a) := by
          simp only [add_alias, hl, if_neg ha]
          rfl
        rw [hcfg]
        intro p hp
        rcases mem_dictInsert_elim hp with h1 | h1
        · rw [h1]
          rw [entryAliases_appendAlias, entryAliases_ensureAliases]
          intro hmem
          rcases List.mem_append.mp hmem with h2 | h2
          · exact hInvE h2
          · have : n = a := by simpa using h2
            exact hne this.symm
        · exact hInv p h1
  · intro k gi hres
    by_cases hk : hasKey (get_games s.config) k = true
    · have hrk : resolveKey s.config k = some k := by
        rw [resolveKey, if_pos hk]
      have hcfg : (update_game s k gi).1.config.games
          = some (dictInsert (get_games s.config) k gi) := by
        simp only [update_game, hk, if_true]
        rfl
      intro p hp
      have hp' : p ∈ dictInsert (get_games s.config) k gi := by
        have : get_games (update_game s k gi).1.config
            = dictInsert (get_games s.config) k gi := by
          rw [get_games, hcfg]; rfl
        rwa [this] at hp
      rcases mem_dictInsert_elim hp' with h1 | h1
      · rw [h1]
        exact hres k hrk
      · exact hInv p h1
    · rcases hf : findAlias (get_games s.config) k with _ | q
      · have hcfg : get_games (update_game s k gi).1.config = get_games s.config := by
          simp only [update_game, hk, Bool.false_eq_true, if_false, hf]
          rfl
        intro p hp
        rw [hcfg] at hp
        exact hInv p hp
      · have hrk : resolveKey s.config k = some q.1 := by
          rw [resolveKey, if_neg (by simp [hk]), hf]
          rfl
        have hcfg : get_games (update_game s k gi).1.config
            = dictInsert (get_games s.config) q.1 gi := by
          simp only [update_game, hk, Bool.false_eq_true, if_false, hf]
          rfl
        intro p hp
        rw [hcfg] at hp
        rcases mem_dictInsert_elim hp with h1 | h1
        · rw [h1]
          exact hres q.1 hrk
        · exact hInv p h1
  · intro k
    by_cases hk : hasKey (get_games s.config) k = true
    · have hcfg : get_games (remove_game s k).1.config
          = dictErase (get_games s.config) k := by
        simp only [remove_game, hk, if_true]
        rfl
      intro p hp
      rw [hcfg] at hp
      exact hInv p (mem_dictErase_iff.mp hp).1
    · rcases hf : findAlias (get_games s.config) k with _ | q
      · have h0 : remove_game s k = (s, false) := by
          simp only [remove_game, hk, Bool.false_eq_true, if_false, hf]
        rw [h0]
        exact hInv
      · have hcfg : get_games (remove_game s k).1.config
            = dictErase (get_games s.config) q.1 := by
          simp only [remove_game, hk, Bool.false_eq_true, if_false, hf]
          rfl
        intro p hp
        rw [hcfg] at hp
        exact hInv p (mem_dictErase_iff.mp hp).1

/-- C4 witness: preservation applied to a concrete registry and concrete
well-behaved inputs. -/
theorem name_not_in_own_aliases_preserved_witness :
    InvDoc (⟨⟨some "0.1.0", some [("A", ⟨"/s", "/b", some ["x"]⟩)]⟩, .missing⟩
      : ConfigState).config ∧
    InvDoc (add_game
      (⟨⟨some "0.1.0", some [("A", ⟨"/s", "/b", some ["x"]⟩)]⟩, .missing⟩
        : ConfigState) "B" "/s2" "/b2" (some ["y"])).config ∧
    InvDoc (add_alias
      (⟨⟨some "0.1.0", some [("A", ⟨"/s", "/b", some ["x"]⟩)]⟩, .missing⟩
        : ConfigState) "A" "z").1.config :=
  ⟨by decide,
   (name_not_in_own_aliases_preserved _ (by decide)).1 "B" "/s2" "/b2"
     (some ["y"]) (by decide),
   (name_not_in_own_aliases_preserved _ (by decide)).2.1 "A" "z" (by decide)⟩

/-- C5: when the persisted registry document exists but fails to parse,
`load_config` returns a default in-memory document — version set to `0.1.0`,
empty games mapping — and writes nothing back: the corrupt file is left
exactly as it was. -/
theorem load_config_corrupt (raw : String) :
    load_config (.corrupt raw) = (defaultDoc, .corrupt raw) ∧
    defaultDoc.version = some "0.1.0" ∧ defaultDoc.games = some [] :=
  ⟨rfl, rfl, rfl⟩

/-- The per-file parse of the source agrees with the claim's wording of it. -/
theorem snapshotOfFile_eq_spec (src f : String) :
    snapshotOfFile src f = snapshotOfFileSpec src f := by
  rw [snapshotOfFile, snapshotOfFileSpec]
  by_cases h : (f.startsWith (src ++ "_") && f.endsWith ".zip") = true
  · rw [if_pos h, if_pos h]
    rcases hp : ((f.drop (src ++ "_").length).dropRight 4).splitOn "_"
        with _ | ⟨p0, tl⟩
    · rfl
    · rcases tl with _ | ⟨p1, rest⟩
      · rfl
      · have h2 : ¬ (p0 :: p1 :: rest).length < 2 := by
          simp only [List.length_cons]
          omega
        rw [if_neg h2]
        rcases rest with _ | ⟨r0, rs⟩
        · rfl
        · have h3 : ¬ (p0 :: p1 :: r0 :: rs).length = 2 := by
            simp only [List.length_cons]
            omega
          rw [if_neg h3]
          rfl
  · rw [if_neg h, if_neg h]

/-- C2: `list_snapshots` keeps exactly the parseable filenames — prefix
`<source>_`, extension `.zip`, at least 2 underscore components after
stripping, timestamp the first two components re-joined, tag the rejoined
remainder (absent when exactly 2 components) — and returns them sorted
descending by the timestamp string. -/
theorem list_snapshots_spec (files : List String) (src : String) :
    (list_snapshots files src).Perm
      (files.filterMap (snapshotOfFileSpec src)) ∧
    (list_snapshots files src).Pairwise
      (fun x y => y.2.1 ≤ x.2.1) := by
  have hfn : snapshotOfFile src = snapshotOfFileSpec src :=
    funext (snapshotOfFile_eq_spec src)
  constructor
  · rw [list_snapshots, hfn]
    exact List.mergeSort_perm _ _
  · have hs := @List.sorted_mergeSort Snapshot
      (fun a b => decide (b.2.1 ≤ a.2.1))
      (fun x y z hxy hyz => by
        simp only [decide_eq_true_eq] at hxy hyz ⊢
        exact le_trans hyz hxy)
      (fun x y => by
        rcases le_total y.2.1 x.2.1 with hle | hle <;> simp [hle])
      (files.filterMap (snapshotOfFile src))
    rw [list_snapshots]
    exact hs.imp (fun h => by simpa using h)

/-- C6: `update_game` resolves its argument exactly like `resolve`
(primary-name match first, then alias scan); it succeeds iff `resolve` finds
an entry; the key set of the mapping is unchanged; on a match the new entry is
stored under the matched entry's primary name (every other key's entry is
untouched) and the document is persisted; on a miss it returns `false` with
the games mapping and the file unmodified. -/
theorem update_game_spec (s : ConfigState) (k : String) (gi : GameEntry) :
    ((update_game s k gi).2 = true ↔ (get_game s.config k).isSome) ∧
    keysOf (get_games (update_game s k gi).1.config)
      = keysOf (get_games s.config) ∧
    (∀ n, resolveKey s.config k = some n →
      lookupAL (get_games (update_game s k gi).1.config) n = some gi ∧
      (∀ m, m ≠ n → lookupAL (get_games (update_game s k gi).1.config) m
        = lookupAL (get_games s.config) m) ∧
      (update_game s k gi).1.file = .ok (update_game s k gi).1.config) ∧
    (resolveKey s.config k = none →
      get_games (update_game s k gi).1.config = get_games s.config ∧
      (update_game s k gi).1.file = s.file) := by
  by_cases hk : hasKey (get_games s.config) k = true
  · have hmem : k ∈ keysOf (get_games s.config) := hasKey_iff_mem.mp hk
    have hres : resolveKey s.config k = some k := by rw [resolveKey, if_pos hk]
    have hg : get_games (update_game s k gi).1.config
        = dictInsert (get_games s.config) k gi := by
      simp only [update_game, hk, if_true]
      rfl
    have hval : (update_game s k gi).2 = true := by
      simp only [update_game, hk, if_true]
    refine ⟨?_, ?_, ?_, ?_⟩
    · rw [hval]
      simp only [true_iff]
      rw [get_game]
      rcases hl : lookupAL (get_games s.config) k with _ | v
      · exact absurd (lookupAL_eq_none_iff.mp hl) (not_not_intro hmem)
      · rfl
    · rw [hg, keysOf_dictInsert_mem hmem]
    · intro n hn
      rw [hres, Option.some_inj] at hn
      subst hn
      refine ⟨?_, ?_, ?_⟩
      · rw [hg]; exact lookupAL_dictInsert_self
      · intro m hm
        rw [hg, lookupAL_dictInsert_ne hm]
      · simp only [update_game, hk, if_true]
        rfl
    · intro hn
      rw [hres] at hn
      exact Option.noConfusion hn
  · rcases hf : findAlias (get_games s.config) k with _ | q
    · have hres : resolveKey s.config k = none := by
        rw [resolveKey, if_neg (by simp [hk]), hf]
        rfl
      have hval : (update_game s k gi).2 = false := by
        simp only [update_game, hk, Bool.false_eq_true, if_false, hf]
      have hg : get_games (update_game s k gi).1.config = get_games s.config := by
        simp only [update_game, hk, Bool.false_eq_true, if_false, hf]
        rfl
      refine ⟨?_, by rw [hg], ?_, ?_⟩
      · rw [hval]
        have : get_game s.config k = none :=
          get_game_eq_none
            (fun hm => hk (hasKey_iff_mem.mpr hm))
            (findAlias_eq_none_iff.mp hf)
        simp [this]
      · intro n hn
        rw [hres] at hn
        exact Option.noConfusion hn
      · intro _
        refine ⟨hg, ?_⟩
        simp only [update_game, hk, Bool.false_eq_true, if_false, hf]
    · obtain ⟨hqmem, hqal⟩ := findAlias_some_elim hf
      have hmem : q.1 ∈ keysOf (get_games s.config) :=
        List.mem_map.mpr ⟨q, hqmem, rfl⟩
      have hres : resolveKey s.config k = some q.1 := by
        rw [resolveKey, if_neg (by simp [hk]), hf]
        rfl
      have hg : get_games (update_game s k gi).1.config
          = dictInsert (get_games s.config) q.1 gi := by
        simp only [update_game, hk, Bool.false_eq_true, if_false, hf]
        rfl
      have hval : (update_game s k gi).2 = true := by
        simp only [update_game, hk, Bool.false_eq_true, if_false, hf]
      refine ⟨?_, ?_, ?_, ?_⟩
      · rw [hval]
        simp only [true_iff]
        rw [get_game, lookupAL_eq_none_iff.mpr (fun hm => hk (hasKey_iff_mem.mpr hm)),
          hf]
        rfl
      · rw [hg, keysOf_dictInsert_mem hmem]
      · intro n hn
        rw [hres, Option.some_inj] at hn
        subst hn
        refine ⟨?_, ?_, ?_⟩
        · rw [hg]; exact lookupAL_dictInsert_self
        · intro m hm
          rw [hg, lookupAL_dictInsert_ne hm]
        · simp only [update_game, hk, Bool.false_eq_true, if_false, hf]
          rfl
      · intro hn
        rw [hres] at hn
        exact Option.noConfusion hn

/-- C6 witness: the update contract applied to a concrete registry via an
alias match. -/
theorem update_game_spec_witness :
    resolveKey (⟨⟨some "0.1.0",
        some [("A", ⟨"/s", "/b", some ["x"]⟩), ("B", ⟨"/s2", "/b2", some []⟩)]⟩,
        .missing⟩ : ConfigState).config "x" = some "A" ∧
    lookupAL (get_games (update_game
      (⟨⟨some "0.1.0",
        some [("A", ⟨"/s", "/b", some ["x"]⟩), ("B", ⟨"/s2", "/b2", some []⟩)]⟩,
        .missing⟩ : ConfigState) "x" ⟨"/new", "/nb", some ["x"]⟩).1.config) "A"
      = some ⟨"/new", "/nb", some ["x"]⟩ :=
  ⟨by decide,
   ((update_game_spec
      (⟨⟨some "0.1.0",
        some [("A", ⟨"/s", "/b", some ["x"]⟩), ("B", ⟨"/s2", "/b2", some []⟩)]⟩,
        .missing⟩ : ConfigState) "x" ⟨"/new", "/nb", some ["x"]⟩).2.2.1 "A"
      (by decide)).1⟩

/-- C10: when `remove_game` resolves its argument to a primary key, it
deletes exactly that key: the call reports success, the key is gone, every
other entry survives verbatim (same save dir, backup dir and aliases), nothing
new appears, and the shrunken document is persisted. -/
theorem remove_game_frame (s : ConfigState) (k n : String)
    (hres : resolveKey s.config k = some n) :
    (remove_game s k).2 = true ∧
    lookupAL (get_games (remove_game s k).1.config) n = none ∧
    (∀ p ∈ get_games s.config, p.1 ≠ n →
      p ∈ get_games (remove_game s k).1.config) ∧
    (∀ p ∈ get_games (remove_game s k).1.config,
      p ∈ get_games s.config ∧ p.1 ≠ n) ∧
    (remove_game s k).1.file = .ok (remove_game s k).1.config := by
  by_cases hk : hasKey (get_games s.config) k = true
  · have hnk : n = k := by
      rw [resolveKey, if_pos hk, Option.some_inj] at hres
      exact hres.symm
    subst hnk
    have hg : get_games (remove_game s n).1.config
        = dictErase (get_games s.config) n := by
      simp only [remove_game, hk, if_true]
      rfl
    refine ⟨by simp only [remove_game, hk, if_true], ?_, ?_, ?_, ?_⟩
    · rw [hg]; exact lookupAL_dictErase_self
    · intro p hp hpn
      rw [hg]
      exact mem_dictErase_iff.mpr ⟨hp, hpn⟩
    · intro p hp
      rw [hg] at hp
      exact mem_dictErase_iff.mp hp
    · simp only [remove_game, hk, if_true]
      rfl
  · rcases hf : findAlias (get_games s.config) k with _ | q
    · rw [resolveKey, if_neg (by simp [hk]), hf] at hres
      exact absurd hres (by simp)
    · have hqn : q.1 = n := by
        rw [resolveKey, if_neg (by simp [hk]), hf] at hres
        simpa using hres
      have hg : get_games (remove_game s k).1.config
          = dictErase (get_games s.config) q.1 := by
        simp only [remove_game, hk, Bool.false_eq_true, if_false, hf]
        rfl
      refine ⟨by simp only [remove_game, hk, Bool.false_eq_true, if_false, hf], ?_, ?_, ?_, ?_⟩
      · rw [hg, hqn]; exact lookupAL_dictErase_self
      · intro p hp hpn
        rw [hg]
        exact mem_dictErase_iff.mpr ⟨hp, hqn ▸ hpn⟩
      · intro p hp
        rw [hg, hqn] at hp
        exact mem_dictErase_iff.mp hp
      · simp only [remove_game, hk, Bool.false_eq_true, if_false, hf]
        rfl

/-- C10 witness: removal through an alias at a concrete two-game registry. -/
theorem remove_game_frame_witness :
    resolveKey (⟨⟨some "0.1.0",
        some [("A", ⟨"/s", "/b", some ["x"]⟩), ("B", ⟨"/s2", "/b2", some []⟩)]⟩,
        .missing⟩ : ConfigState).config "x" = some "A" ∧
    (remove_game (⟨⟨some "0.1.0",
        some [("A", ⟨"/s", "/b", some ["x"]⟩), ("B", ⟨"/s2", "/b2", some []⟩)]⟩,
        .missing⟩ : ConfigState) "x").2 = true ∧
    lookupAL (get_games (remove_game (⟨⟨some "0.1.0",
        some [("A", ⟨"/s", "/b", some ["x"]⟩), ("B", ⟨"/s2", "/b2", some []⟩)]⟩,
        .missing⟩ : ConfigState) "x").1.config) "A" = none :=
  ⟨by decide,
   (remove_game_frame _ "x" "A" (by decide)).1,
   (remove_game_frame (⟨⟨some "0.1.0",
        some [("A", ⟨"/s", "/b", some ["x"]⟩), ("B", ⟨"/s2", "/b2", some []⟩)]⟩,
        .missing⟩ : ConfigState) "x" "A" (by decide)).2.1⟩

/-- C7: invoking `register` with a save directory that does not exist prints
the path-missing error and mutates nothing: the final world is exactly the
world after the unconditional startup load of the config file — no entry is
added or overwritten and the command itself persists nothing (in particular a
config file that was present is byte-identical afterwards). -/
theorem register_missing_save_dir (ap : String → String) (w : World)
    (r : RegisterArgs) (h : ap r.save_dir ∉ w.dirs) :
    mainRun ap ⟨false, some r⟩ w
      = ({ w with configFile := (load_config w.configFile).2 },
         ["Save directory '" ++ ap r.save_dir ++ "' does not exist."]) ∧
    (∀ d, w.configFile = .ok d →
      (mainRun ap ⟨false, some r⟩ w).1.configFile = .ok d) := by
  have hmain : mainRun ap ⟨false, some r⟩ w
      = ({ w with configFile := (load_config w.configFile).2 },
         ["Save directory '" ++ ap r.save_dir ++ "' does not exist."]) := by
    simp [mainRun, verify_directories, h]
  refine ⟨hmain, fun d hd => ?_⟩
  rw [hmain, hd]
  rfl

/-- C7 witness: a concrete `register` run against a missing save directory. -/
theorem register_missing_save_dir_witness :
    ("/nope" ∉ (⟨.ok defaultDoc, ["/b"]⟩ : World).dirs) ∧
    mainRun id ⟨false, some ⟨"G", "/nope", "/b", none⟩⟩ ⟨.ok defaultDoc, ["/b"]⟩
      = (⟨.ok defaultDoc, ["/b"]⟩,
         ["Save directory '/nope' does not exist."]) :=
  ⟨by decide, by
    rw [(register_missing_save_dir id ⟨.ok defaultDoc, ["/b"]⟩
      ⟨"G", "/nope", "/b", none⟩ (by decide)).1]
    rfl⟩

/-- C8: with `--version` set the program prints the fixed version string
`quicksave version 0.1.0` and returns before any command logic runs: no
command is dispatched, and handling the flag reads or writes no registry or
filesystem state — the run's only effect is the flag-independent startup load
of the config file (`Config()` runs before the flag check on every
invocation). -/
theorem version_flag_spec (ap : String → String) (args : Args) (w : World)
    (hv : args.version = true) :
    mainRun ap args w
      = ({ w with configFile := (load_config w.configFile).2 },
         ["quicksave version 0.1.0"]) := by
  simp [mainRun, hv]

/-- C8 witness: the `--version` behavior on a concrete world. -/
theorem version_flag_spec_witness :
    ((⟨true, none⟩ : Args).version = true) ∧
    mainRun id ⟨true, none⟩ ⟨.missing, []⟩
      = (⟨.ok defaultDoc, []⟩, ["quicksave version 0.1.0"]) :=
  ⟨rfl, by
    rw [version_flag_spec id ⟨true, none⟩ ⟨.missing, []⟩ rfl]
    rfl⟩

/-- C9: on a document lacking the `games` mapping every registry operation is
total and well-behaved: `get_games` is empty, `get_game` is not-found, and
`add_alias` and `remove_game` return `false` without touching the state. -/
theorem ops_total_without_games (s : ConfigState) (k a : String)
    (h : s.config.games = none) :
    get_games s.config = [] ∧ get_game s.config k = none ∧
    add_alias s k a = (s, false) ∧ remove_game s k = (s, false) := by
  have hg : get_games s.config = [] := by rw [get_games, h]; rfl
  refine ⟨hg, ?_, ?_, ?_⟩
  · simp [get_game, hg, lookupAL, findAlias]
  · simp [add_alias, hg, lookupAL]
  · simp [remove_game, hg, hasKey, findAlias]

/-- C9 witness: the totality statement applied to the empty document. -/
theorem ops_total_without_games_witness :
    (ConfigState.mk ⟨none, none⟩ .missing).config.games = none ∧
    (get_games (ConfigState.mk ⟨none, none⟩ .missing).config = [] ∧
     get_game (ConfigState.mk ⟨none, none⟩ .missing).config "g" = none ∧
     add_alias (ConfigState.mk ⟨none, none⟩ .missing) "g" "a"
       = (ConfigState.mk ⟨none, none⟩ .missing, false) ∧
     remove_game (ConfigState.mk ⟨none, none⟩ .missing) "g"
       = (ConfigState.mk ⟨none, none⟩ .missing, false)) :=
  ⟨rfl, ops_total_without_games _ "g" "a" rfl⟩

end Quicksave
